import Mathlib

/-!
Verification development for the sequencer-recovery replayer
(`packages/pds/src/scripts/sequencer-recovery/recoverer.ts`).

The TypeScript source is shallowly embedded as pure Lean functions over an
explicit world state.  Functions of this repository that live outside the
inspected source (the actor store, `UserQueues`, `prepareCreate` /
`prepareUpdate` / `prepareDelete`, `rmIfExists`, the sequencer) are modelled
from the specification; each such definition carries a doc comment starting
`Modelled from the spec:`.  Everything that appears verbatim in
`recoverer.ts` (control flow of `processCommit`, `processRepoCreation`,
`processAccountEvt`, `trackBlobs`, `parseCommitEvt`, `loadNextPage`, `run`)
is translated directly from that file.
-/

set_option autoImplicit false

namespace Recovery

/-- Content identifier.  CIDs are opaque identifiers derived from block
bytes; the embedding represents them by natural numbers. -/
abbrev Cid := Nat

/-- Account identifier (a DID string). -/
abbrev Did := String

/-- Revision marker: a string, ordered lexicographically per account
(the source compares revisions with the string `>=` operator). -/
abbrev Rev := String

/-- A blob reference carried by a prepared create/update write:
`{cid, mimeType, size}`. -/
structure PreparedBlobRef where
  cid : Cid
  mimeType : String
  size : Nat
  deriving DecidableEq

/-- A decoded record.  `cborToLexRecord` output is modelled in decoded form:
an opaque payload plus the list of blob references the record points at
(`blobsForWrite` reads the latter). -/
structure LexRecord where
  payload : List Nat
  blobs : List PreparedBlobRef
  deriving DecidableEq

/-- Block map: content hash to decoded block.  The CAR bundle of a commit
event is modelled already decoded (`readCar` is the identity on it). -/
abbrev BlockMap := List (Cid × LexRecord)

/-- Lookup of a block by its content hash. -/
def BlockMap.get (bm : BlockMap) (c : Cid) : Option LexRecord :=
  (bm.find? (fun kv => kv.1 == c)).map (fun kv => kv.2)

/-- Action of a repo operation in a commit event (`op.action`). -/
inductive WriteOpAction where
  | create
  | update
  | delete
  deriving DecidableEq

/-- One entry of a commit event's `ops` list: `{action, path, cid}`. -/
structure RepoOp where
  action : WriteOpAction
  path : String
  cid : Option Cid
  deriving DecidableEq

/-- Commit event payload: `{repo, rev, since, prev, commit, ops, blocks}`,
with `blocks` the decoded CAR bundle. -/
structure CommitEvt where
  repo : Did
  rev : Rev
  since : Option Rev
  prev : Option Cid
  commit : Cid
  ops : List RepoOp
  blocks : BlockMap
  deriving DecidableEq

/-- Account status carried by an account event. -/
inductive AccountStatus where
  | active
  | deactivated
  | takendown
  | suspended
  | deleted
  deriving DecidableEq

/-- Account event payload: `{did, status}`. -/
structure AccountEvt where
  did : Did
  status : AccountStatus
  deriving DecidableEq

/-- Payload of a sequenced event: commit or account event. -/
inductive SeqEvtData where
  | commit (evt : CommitEvt)
  | account (evt : AccountEvt)
  deriving DecidableEq

/-- A sequenced event: a payload tagged with its sequence number. -/
structure SeqEvt where
  seq : Nat
  evt : SeqEvtData
  deriving DecidableEq

/-- A prepared write, the decoded form of one repo operation.  Create and
update carry the decoded record, its blob references and the validate flag;
deletes carry none of these (the variant has no such fields, so a delete can
never hold blob descriptors). -/
inductive PreparedWrite where
  | create (did collection rkey : String) (record : LexRecord)
      (blobs : List PreparedBlobRef) (validate : Bool)
  | update (did collection rkey : String) (record : LexRecord)
      (blobs : List PreparedBlobRef) (validate : Bool)
  | delete (did collection rkey : String)
  deriving DecidableEq

namespace PreparedWrite

/-- The record address (AT-URI) of a prepared write. -/
def uri : PreparedWrite → String
  | .create did collection rkey _ _ _ => "at://" ++ did ++ "/" ++ collection ++ "/" ++ rkey
  | .update did collection rkey _ _ _ => "at://" ++ did ++ "/" ++ collection ++ "/" ++ rkey
  | .delete did collection rkey => "at://" ++ did ++ "/" ++ collection ++ "/" ++ rkey

/-- Blob references carried by a prepared write; a delete carries none. -/
def blobRefs : PreparedWrite → List PreparedBlobRef
  | .create _ _ _ _ blobs _ => blobs
  | .update _ _ _ _ blobs _ => blobs
  | .delete _ _ _ => []

/-- The decoded record carried by a prepared write, when any. -/
def recordOf : PreparedWrite → Option LexRecord
  | .create _ _ _ record _ _ => some record
  | .update _ _ _ record _ _ => some record
  | .delete _ _ _ => none

/-- The validate flag of a prepared write (deletes have none; `false`). -/
def validateFlag : PreparedWrite → Bool
  | .create _ _ _ _ _ v => v
  | .update _ _ _ _ _ v => v
  | .delete _ _ _ => false

/-- Whether the write is a create or an update. -/
def isCreateOrUpdate : PreparedWrite → Bool
  | .create _ _ _ _ _ _ => true
  | .update _ _ _ _ _ _ => true
  | .delete _ _ _ => false

/-- Whether the write is a delete. -/
def isDelete : PreparedWrite → Bool
  | .delete _ _ _ => true
  | _ => false

end PreparedWrite

/-- Modelled from the spec: `blobsForWrite` extracts the blob references a
decoded record points at (used by `prepareCreate`/`prepareUpdate`, which are
repository code outside the inspected source). -/
def blobsForWrite (record : LexRecord) : List PreparedBlobRef :=
  record.blobs

/-- Modelled from the spec: `prepareCreate` (repository code outside the
inspected source) builds a create write for `did`/`collection`/`rkey`
carrying the decoded record, its blob references, and the validate flag. -/
def prepareCreate (did collection rkey : String) (record : LexRecord)
    (validate : Bool) : PreparedWrite :=
  .create did collection rkey record (blobsForWrite record) validate

/-- Modelled from the spec: `prepareUpdate`, as `prepareCreate` but for an
update write. -/
def prepareUpdate (did collection rkey : String) (record : LexRecord)
    (validate : Bool) : PreparedWrite :=
  .update did collection rkey record (blobsForWrite record) validate

/-- Modelled from the spec: `prepareDelete` builds a delete write; it takes
no record and carries no blob references. -/
def prepareDelete (did collection rkey : String) : PreparedWrite :=
  .delete did collection rkey

/-- Splits a character list at its first slash (helper for
`parseDataKey`). -/
def splitAtSlash : List Char → List Char × List Char
  | [] => ([], [])
  | c :: rest =>
      if c = '/' then ([], rest)
      else
        let r := splitAtSlash rest
        (c :: r.1, r.2)

/-- Modelled from the spec: `parseDataKey` (repository code outside the
inspected source) resolves an op path into its collection / record-key
pair, splitting at the first slash. -/
def parseDataKey (path : String) : String × String :=
  let p := splitAtSlash path.data
  (⟨p.1⟩, ⟨p.2⟩)

/-- One step of `parseCommitEvt`'s `ops.map`: a delete op is prepared
directly; a create/update op is resolved against the decoded block bundle
and yields `none` (dropped) when the op has no cid or the cid is absent
from the bundle. -/
def parseOp (did : Did) (blocks : BlockMap) (op : RepoOp) : Option PreparedWrite :=
  let ck := parseDataKey op.path
  if op.action = .delete then
    some (prepareDelete did ck.1 ck.2)
  else
    match op.cid with
    | none => none
    | some c =>
      match blocks.get c with
      | none => none
      | some record =>
        if op.action = .create then
          some (prepareCreate did ck.1 ck.2 record false)
        else
          some (prepareUpdate did ck.1 ck.2 record false)

/-- `parseCommitEvt` from the source: decode the event's block bundle, map
every op through `parseOp`, and keep only the resolvable writes (the
`filter (w) => w !== undefined` of the source is the `filterMap`). -/
def parseCommitEvt (evt : CommitEvt) : List PreparedWrite × BlockMap :=
  (evt.ops.filterMap (parseOp evt.repo evt.blocks), evt.blocks)

/-! ### Blob bookkeeping (`trackBlobs`) -/

/-- A row of the `blob` metadata table: `{cid, mimeType, size, createdAt}`.
Its conflict target (primary key) is `cid`. -/
structure BlobRow where
  cid : Cid
  mimeType : String
  size : Nat
  createdAt : String
  deriving DecidableEq

/-- The blob side tables of one actor's database: `record_blob` association
rows (conflict target: the whole `(blobCid, recordUri)` pair) and `blob`
metadata rows. -/
structure BlobDb where
  recordBlob : List (Cid × String)
  blob : List BlobRow
  deriving DecidableEq

/-- The empty blob database. -/
def BlobDb.empty : BlobDb := ⟨[], []⟩

/-- `insertInto('record_blob').values(...).onConflict(doNothing)`: a
conflicting insert (same `(blobCid, recordUri)` pair) is silently ignored
and does not overwrite the existing row. -/
def insertRecordBlob (db : BlobDb) (bc : Cid) (ru : String) : BlobDb :=
  if (bc, ru) ∈ db.recordBlob then db
  else { db with recordBlob := db.recordBlob ++ [(bc, ru)] }

/-- `insertInto('blob').values(...).onConflict(doNothing)`: a conflicting
insert (same `cid`) is silently ignored and does not overwrite the
existing row. -/
def insertBlob (db : BlobDb) (r : BlobRow) : BlobDb :=
  if db.blob.any (fun row => row.cid == r.cid) then db
  else { db with blob := db.blob ++ [r] }

/-- The cids of the blob references of a write (deletes reference none). -/
def blobCidsOf (w : PreparedWrite) : List Cid :=
  w.blobRefs.map (fun b => b.cid)

/-- Modelled from the spec: `deleteDereferencedBlobs` (actor-store code
outside the inspected source) unreferences blobs that are no longer pointed
to by any surviving record — it drops each association row whose record is
being rewritten by one of the writes and whose blob the new record no
longer references. -/
def keepRow (writes : List PreparedWrite) (row : Cid × String) : Bool :=
  !(writes.any (fun w => w.uri == row.2 && !((blobCidsOf w).contains row.1)))

/-- Modelled from the spec: the association-row filtering performed by
`deleteDereferencedBlobs writes`. -/
def deleteDereferencedBlobs (writes : List PreparedWrite) (db : BlobDb) : BlobDb :=
  { db with recordBlob := db.recordBlob.filter (keepRow writes) }

/-- The `(blob reference, record uri)` pairs visited by `trackBlobs`'s
nested loop, in loop order: for each create/update write in order, each of
its blob references in order. -/
def blobPairsOf (writes : List PreparedWrite) : List (PreparedBlobRef × String) :=
  writes.flatMap (fun w =>
    if w.isCreateOrUpdate then w.blobRefs.map (fun b => (b, w.uri)) else [])

/-- One iteration of `trackBlobs`'s inner loop: insert the association row,
then the metadata row, both with conflicts ignored. -/
def trackStep (now : String) (db : BlobDb) (p : PreparedBlobRef × String) : BlobDb :=
  insertBlob (insertRecordBlob db p.1.cid p.2)
    { cid := p.1.cid, mimeType := p.1.mimeType, size := p.1.size, createdAt := now }

/-- `Recoverer.trackBlobs`: first `deleteDereferencedBlobs`, then for each
create/update write and each of its blobs, insert-or-ignore the
`record_blob` association row and the `blob` metadata row (`createdAt` is
the transactor's timestamp `now`). -/
def trackBlobs (writes : List PreparedWrite) (now : String) (db : BlobDb) : BlobDb :=
  (blobPairsOf writes).foldl (trackStep now) (deleteDereferencedBlobs writes db)

/-! ### The world state: actor store, account manager, filesystem -/

/-- Lexicographic strict comparison of character lists: the order
JavaScript's `<` uses on strings. -/
def charsLt : List Char → List Char → Bool
  | [], [] => false
  | [], _ :: _ => true
  | _ :: _, [] => false
  | a :: as, b :: bs =>
      if a < b then true
      else if b < a then false
      else charsLt as bs

/-- The JavaScript string comparison `a >= b` used by the source's
revision gate (`root.rev >= evt.rev`): lexicographic, as the negation of
strict `<`. -/
def revGe (a b : Rev) : Bool :=
  !(charsLt a.data b.data)

/-- The state of one account's repository: head commit, stored revision,
block storage, record index (keyed by record uri), blob side tables, and
the identifier of the signing key created for the account. -/
structure ActorState where
  head : Cid
  rev : Rev
  blocks : BlockMap
  records : List (String × LexRecord)
  blobDb : BlobDb
  keyId : Nat
  deriving DecidableEq

/-- The whole replayer-visible state: the actor store (one repository per
did), the account-management records, the set of existing on-disk storage
directories, a counter of signing identities issued so far, and the
transactor timestamp used for `createdAt` columns. -/
structure World where
  actors : List (Did × ActorState)
  accounts : List Did
  directories : List String
  keysIssued : Nat
  now : String
  deriving DecidableEq

/-- Lookup of an account's repository in the actor store. -/
def lookupActor (w : World) (did : Did) : Option ActorState :=
  (w.actors.find? (fun kv => kv.1 == did)).map (fun kv => kv.2)

/-- Replace (or, when absent, append) an account's repository state. -/
def setActor (w : World) (did : Did) (a : ActorState) : World :=
  if w.actors.any (fun kv => kv.1 == did) then
    { w with actors := w.actors.map (fun kv => if kv.1 == did then (did, a) else kv) }
  else
    { w with actors := w.actors ++ [(did, a)] }

/-- `indexWrites` of one write against the record index: create/update set
the record at the write's uri; delete removes it. -/
def indexWrite (records : List (String × LexRecord)) (w : PreparedWrite) :
    List (String × LexRecord) :=
  match w.recordOf with
  | some record =>
      if records.any (fun kv => kv.1 == w.uri) then
        records.map (fun kv => if kv.1 == w.uri then (w.uri, record) else kv)
      else
        records ++ [(w.uri, record)]
  | none => records.filter (fun kv => kv.1 != w.uri)

/-- Modelled from the spec: `repo.indexWrites(writes, rev)` (actor-store
code outside the inspected source) updates the record index from the
prepared writes, in order. -/
def indexWrites (writes : List PreparedWrite) (records : List (String × LexRecord)) :
    List (String × LexRecord) :=
  writes.foldl indexWrite records

/-- Modelled from the spec: `repo.blob.processWriteBlobs(rev, writes)`
(actor-store code outside the inspected source) processes blob references
for brand-new records: it inserts the association and metadata rows for
every blob of every create/update write, with no prior state to diff
against (no dereference pass). -/
def processWriteBlobs (writes : List PreparedWrite) (now : String) (db : BlobDb) : BlobDb :=
  (blobPairsOf writes).foldl (trackStep now) db

/-- The body of the non-genesis transaction of `processCommit`, lines
96-110 of the source: format the outgoing commit with the event's head and
revision and the decoded new blocks, then apply it to block storage, update
the record index, and reconcile blob references — one atomic unit on the
actor's state.  (`formatCommit` is repository code outside the inspected
source; the source overrides its `newBlocks`, `cid` and `rev` fields with
the event's data, which is what is applied here.) -/
def applyCommitTxn (evt : CommitEvt) (writes : List PreparedWrite)
    (blocks : BlockMap) (now : String) (a : ActorState) : ActorState :=
  { a with
    head := evt.commit
    rev := evt.rev
    blocks := a.blocks ++ blocks
    records := indexWrites writes a.records
    blobDb := trackBlobs writes now a.blobDb }

/-- `Recoverer.processRepoCreation`: generate a fresh signing identity
(modelled by the `keysIssued` counter), create the account's repository,
and apply the event's commit as the first commit, indexing its writes and
processing its blob references.  The stored revision becomes the event's
revision. -/
def processRepoCreation (evt : CommitEvt) (writes : List PreparedWrite)
    (blocks : BlockMap) (w : World) : World :=
  let keyId := w.keysIssued
  let a : ActorState :=
    { head := evt.commit
      rev := evt.rev
      blocks := blocks
      records := indexWrites writes []
      blobDb := processWriteBlobs writes w.now BlobDb.empty
      keyId := keyId }
  setActor { w with keysIssued := w.keysIssued + 1 } evt.repo a

/-- The non-genesis path of `processCommit`'s task:
`actorStore.transact(did, ...)`.  A missing repository makes the
transaction fail (error tagged with the account's did); otherwise the
stored revision is read and, when already `>=` the event's revision, the
application is skipped as a no-op. -/
def transactCommit (evt : CommitEvt) (writes : List PreparedWrite)
    (blocks : BlockMap) (w : World) : Except Did World :=
  match lookupActor w evt.repo with
  | none => .error evt.repo
  | some a =>
      if revGe a.rev evt.rev then .ok w
      else .ok (setActor w evt.repo (applyCommitTxn evt writes blocks w.now a))

/-- The task enqueued by `Recoverer.processCommit`: parse the event, take
the genesis path when `since` is null and the account's repository does not
exist, and otherwise the ordinary transactional path. -/
def commitTask (evt : CommitEvt) (w : World) : Except Did World :=
  let parsed := parseCommitEvt evt
  if evt.since = none ∧ lookupActor w evt.repo = none then
    .ok (processRepoCreation evt parsed.1 parsed.2 w)
  else
    transactCommit evt parsed.1 parsed.2 w

/-- Modelled from the spec: `actorStore.getLocation(did)` yields the
account's on-disk storage directory. -/
def storageDir (did : Did) : String := "actors/" ++ did

/-- Strict directory removal: fails when the directory is absent.
(`rmIfExists` tolerates exactly this failure.) -/
def rmDir (dir : String) (w : World) : Option World :=
  if dir ∈ w.directories then
    some { w with directories := w.directories.filter (fun d => d != dir) }
  else none

/-- Modelled from the spec: `rmIfExists` (repository code outside the
inspected source) removes the directory, succeeding as a no-op when it is
already absent. -/
def rmIfExists (dir : String) (w : World) : World :=
  (rmDir dir w).getD w

/-- The task enqueued by `Recoverer.processAccountEvt` for a deleted
account: remove the on-disk storage location (tolerating "already
absent"), then remove the account-management record. -/
def deletionTask (did : Did) (w : World) : Except Did World :=
  let w1 := rmIfExists (storageDir did) w
  .ok { w1 with accounts := w1.accounts.filter (fun d => d != did) }

/-! ### Per-key queue and orchestrator -/

/-- A queued unit of work.  A task's behaviour is fully determined by the
event that enqueued it, so queue entries record that event. -/
inductive Task where
  | commit (evt : CommitEvt)
  | deletion (did : Did)
  deriving DecidableEq

/-- Running a queued task against the world.  An error carries the owning
account's did (the source logs the did and rethrows). -/
def runTask : Task → World → Except Did World
  | .commit evt, w => commitTask evt w
  | .deletion did, w => deletionTask did w

/-- The world after a task has completed (success or failure); a failed
transaction leaves the stored state unchanged. -/
def execTask (t : Task) (w : World) : World :=
  match runTask t w with
  | .ok w' => w'
  | .error _ => w

/-- Modelled from the spec: `UserQueues` (repository code outside the
inspected source) keeps one FIFO of tasks per account key under a global
concurrency ceiling; tasks for the same key run in enqueue order. -/
structure UserQueues where
  concurrency : Nat
  main : List (Did × List Task)
  deriving DecidableEq

/-- A fresh queue set with the given concurrency ceiling and no tasks. -/
def UserQueues.empty (concurrency : Nat) : UserQueues :=
  ⟨concurrency, []⟩

/-- Modelled from the spec: `queues.addToUser(did, task)` appends the task
to the did's FIFO (creating it when absent); it never blocks the caller. -/
def addToUser (q : UserQueues) (did : Did) (t : Task) : UserQueues :=
  if q.main.any (fun kv => kv.1 == did) then
    { q with main := q.main.map (fun kv => if kv.1 == did then (kv.1, kv.2 ++ [t]) else kv) }
  else
    { q with main := q.main ++ [(did, t :: [])] }

/-- Modelled from the spec: draining every queued task — each key's FIFO in
enqueue order — against the world. -/
def drainQueues (q : UserQueues) (w : World) : World :=
  q.main.foldl (fun w kv => kv.2.foldl (fun w t => execTask t w) w) w

/-- `Recoverer.processAccountEvt`: only deleted status is processed; the
deletion task is enqueued keyed by the account's did; any other status is
ignored. -/
def processAccountEvt (evt : AccountEvt) (q : UserQueues) : UserQueues :=
  if evt.status ≠ .deleted then q
  else addToUser q evt.did (.deletion evt.did)

/-- `Recoverer.processCommit`: enqueue the commit-application task keyed by
the event's repo did. -/
def processCommit (evt : CommitEvt) (q : UserQueues) : UserQueues :=
  addToUser q evt.repo (.commit evt)

/-- `Recoverer.processEvent`: dispatch on the event type. -/
def processEvent (evt : SeqEvt) (q : UserQueues) : UserQueues :=
  match evt.evt with
  | .account e => processAccountEvt e q
  | .commit e => processCommit e q

/-- The orchestrator's state: the cursor, the per-key queues, and the world
the queued tasks operate on. -/
structure RecoverState where
  cursor : Nat
  queues : UserQueues
  world : World
  deriving DecidableEq

/-- The `Recoverer` constructor: built from a start cursor and a
concurrency limit; the cursor field is exposed as `this.cursor`. -/
def recovererInit (cursor concurrency : Nat) (w : World) : RecoverState :=
  { cursor := cursor, queues := UserQueues.empty concurrency, world := w }

/-- Modelled from the spec: `sequencer.requestSeqRange({earliestSeq, limit})`
pages the ordered log, returning up to `limit` events with sequence number
past the cursor; an empty result signals end-of-log. -/
def pageFor (log : List SeqEvt) (cursor : Nat) : List SeqEvt :=
  (log.filter (fun e => cursor < e.seq)).take 5000

/-- Dispatch of a fetched page: every event is enqueued, in page order. -/
def dispatchPage (page : List SeqEvt) (q : UserQueues) : UserQueues :=
  page.foldl (fun q e => processEvent e q) q

/-- `Recoverer.loadNextPage`: fetch the page after the cursor, dispatch
every event of the page to the per-key queues, and only then — when the
page was non-empty — advance the cursor to the page's last event's
sequence number.  An empty page leaves the state unchanged and reports
end-of-log. -/
def loadNextPage (log : List SeqEvt) (s : RecoverState) : Bool × RecoverState :=
  let page := pageFor log s.cursor
  let q := dispatchPage page s.queues
  match page.getLast? with
  | none => (true, { s with queues := q })
  | some lastEvt => (false, { s with cursor := lastEvt.seq, queues := q })

/-- The page-fetch loop of `Recoverer.run`, with explicit fuel: repeat
`loadNextPage` until it reports end-of-log.  (`onEmpty` is a pure wait —
it changes none of the state tracked here.) -/
def runLoop (log : List SeqEvt) : Nat → RecoverState → Option RecoverState
  | 0, _ => none
  | fuel + 1, s =>
      match loadNextPage log s with
      | (true, s') => some s'
      | (false, s') => runLoop log fuel s'

/-- Modelled from the spec: `queues.processAll()` waits until every queued
and running task has completed; afterwards no tasks remain. -/
def processAllState (s : RecoverState) : RecoverState :=
  { s with world := drainQueues s.queues s.world,
           queues := UserQueues.empty s.queues.concurrency }

/-- `Recoverer.run`: the page-fetch loop followed — only on end-of-log —
by the final `processAll` flush. -/
def runRecoverer (log : List SeqEvt) (fuel : Nat) (s : RecoverState) :
    Option RecoverState :=
  (runLoop log fuel s).map processAllState

/-! ### Scheduling of the non-genesis commit transaction

Lines 105-109 of the source await
`Promise.all([storage.applyCommit(commit), repo.indexWrites(writes, rev),
trackBlobs(actorTxn, writes)])`: the three sub-operations of the
transaction run concurrently and are awaited together.  The possible
completion orders are modelled as interleavings of each sub-operation's
start/finish events. -/

/-- The three sub-operations awaited together by the non-genesis commit
transaction. -/
inductive TxnAct where
  | applyCommitOp
  | indexWritesOp
  | trackBlobsOp
  deriving DecidableEq

/-- Start or finish of one sub-operation. -/
inductive Phase where
  | start
  | finish
  deriving DecidableEq

/-- A scheduling event: a sub-operation together with its phase. -/
abbrev TraceEv := TxnAct × Phase

/-- Fuel-indexed worker for `interleavings` (structural recursion on the
fuel, so that concrete trace sets evaluate by kernel reduction). -/
def interleavingsAux {α : Type} : Nat → List α → List α → List (List α)
  | 0, xs, ys => [xs ++ ys]
  | _ + 1, [], ys => [ys]
  | _ + 1, x :: xs, [] => [x :: xs]
  | n + 1, x :: xs, y :: ys =>
      (interleavingsAux n xs (y :: ys)).map (fun t => x :: t) ++
      (interleavingsAux n (x :: xs) ys).map (fun t => y :: t)

/-- All interleavings of two sequences (each sequence's internal order is
preserved). -/
def interleavings {α : Type} (xs ys : List α) : List (List α) :=
  interleavingsAux (xs.length + ys.length) xs ys

/-- The execution traces admitted by the `Promise.all` of the commit
transaction: each sub-operation runs start-then-finish, and the three are
interleaved without any cross-operation ordering constraint. -/
def commitTxnTraces : List (List TraceEv) :=
  (interleavings
      [(TxnAct.applyCommitOp, Phase.start), (TxnAct.applyCommitOp, Phase.finish)]
      [(TxnAct.indexWritesOp, Phase.start), (TxnAct.indexWritesOp, Phase.finish)]).flatMap
    (fun t => interleavings t
      [(TxnAct.trackBlobsOp, Phase.start), (TxnAct.trackBlobsOp, Phase.finish)])

/-- Whether event `a` occurs strictly before event `b` in the trace. -/
def beforeIn (t : List TraceEv) (a b : TraceEv) : Bool :=
  match t.findIdx? (fun e => e == a), t.findIdx? (fun e => e == b) with
  | some i, some j => i < j
  | _, _ => false

/-- The trace in which the JavaScript event loop starts all three
sub-operations (in call order) before any of them completes. -/
def eagerStartTrace : List TraceEv :=
  [(TxnAct.applyCommitOp, Phase.start), (TxnAct.indexWritesOp, Phase.start),
   (TxnAct.trackBlobsOp, Phase.start), (TxnAct.applyCommitOp, Phase.finish),
   (TxnAct.indexWritesOp, Phase.finish), (TxnAct.trackBlobsOp, Phase.finish)]

/-- The ordering the claim asserts of a trace: blob reconciliation starts
only after both the block-storage and the record-index mutations have
completed. -/
def blobsAfterMutations (t : List TraceEv) : Bool :=
  beforeIn t (TxnAct.applyCommitOp, Phase.finish) (TxnAct.trackBlobsOp, Phase.start) &&
  beforeIn t (TxnAct.indexWritesOp, Phase.finish) (TxnAct.trackBlobsOp, Phase.start)

/-! ### Helper lemmas -/

lemma charsLt_self (l : List Char) : charsLt l l = false := by
  induction l with
  | nil => rfl
  | cons c t ih => simp [charsLt, ih]

lemma revGe_refl (r : Rev) : revGe r r = true := by
  simp [revGe, charsLt_self]

lemma find?_map_replace (l : List (Did × ActorState)) (d : Did) (a : ActorState)
    (h : l.any (fun kv => kv.1 == d) = true) :
    (l.map (fun kv => if kv.1 == d then (d, a) else kv)).find?
      (fun kv => kv.1 == d) = some (d, a) := by
  induction l with
  | nil => simp at h
  | cons kv t ih =>
      by_cases hk : kv.1 = d
      · rw [List.map_cons, if_pos (by simp [hk])]
        exact List.find?_cons_of_pos _ (by simp)
      · rw [List.map_cons, if_neg (by simp [hk]),
          List.find?_cons_of_neg _ (by simp [hk])]
        exact ih (by simpa [List.any_cons, hk] using h)

lemma find?_map_replace_other (l : List (Did × ActorState)) (d d' : Did) (a : ActorState)
    (hne : d' ≠ d) :
    (l.map (fun kv => if kv.1 == d then (d, a) else kv)).find?
      (fun kv => kv.1 == d') = l.find? (fun kv => kv.1 == d') := by
  induction l with
  | nil => rfl
  | cons kv t ih =>
      by_cases hk : kv.1 = d
      · have hk' : ¬ (kv.1 = d') := fun hh => hne ((hk ▸ hh : d = d').symm)
        rw [List.map_cons, if_pos (by simp [hk]),
          List.find?_cons_of_neg _ (by simp; exact fun hh => hne hh.symm),
          List.find?_cons_of_neg _ (by simp [hk'])]
        exact ih
      · by_cases hk2 : kv.1 = d'
        · rw [List.map_cons, if_neg (by simp [hk]),
            List.find?_cons_of_pos _ (by simp [hk2]),
            List.find?_cons_of_pos _ (by simp [hk2])]
        · rw [List.map_cons, if_neg (by simp [hk]),
            List.find?_cons_of_neg _ (by simp [hk2]),
            List.find?_cons_of_neg _ (by simp [hk2])]
          exact ih

lemma find?_none_of_any_false (l : List (Did × ActorState)) (d : Did)
    (h : l.any (fun kv => kv.1 == d) = false) :
    l.find? (fun kv => kv.1 == d) = none := by
  induction l with
  | nil => rfl
  | cons kv t ih =>
      by_cases hk : kv.1 = d
      · simp [List.any_cons, hk] at h
      · rw [List.find?_cons_of_neg _ (by simp [hk])]
        exact ih (by simpa [List.any_cons, hk] using h)

lemma lookupActor_setActor_self (w : World) (d : Did) (a : ActorState) :
    lookupActor (setActor w d a) d = some a := by
  unfold setActor lookupActor
  by_cases h : w.actors.any (fun kv => kv.1 == d) = true
  · rw [if_pos h]
    simp only [find?_map_replace w.actors d a h, Option.map_some']
  · rw [if_neg h]
    have h' : w.actors.any (fun kv => kv.1 == d) = false := Bool.eq_false_iff.mpr h
    rw [List.find?_append, find?_none_of_any_false w.actors d h']
    simp [List.find?]

lemma lookupActor_setActor_other (w : World) (d d' : Did) (a : ActorState)
    (hne : d' ≠ d) :
    lookupActor (setActor w d a) d' = lookupActor w d' := by
  unfold setActor lookupActor
  by_cases h : w.actors.any (fun kv => kv.1 == d) = true
  · rw [if_pos h]
    rw [find?_map_replace_other w.actors d d' a hne]
  · rw [if_neg h]
    rw [List.find?_append]
    have : (([(d, a)] : List (Did × ActorState)).find? (fun kv => kv.1 == d')) = none := by
      rw [List.find?_cons_of_neg _ (by simp; exact fun hh => hne hh.symm)]
      rfl
    rw [this]
    cases w.actors.find? (fun kv => kv.1 == d') <;> rfl

lemma setActor_keysIssued (w : World) (d : Did) (a : ActorState) :
    (setActor w d a).keysIssued = w.keysIssued := by
  unfold setActor
  by_cases h : w.actors.any (fun kv => kv.1 == d) = true <;> simp [h]

lemma setActor_now (w : World) (d : Did) (a : ActorState) :
    (setActor w d a).now = w.now := by
  unfold setActor
  by_cases h : w.actors.any (fun kv => kv.1 == d) = true <;> simp [h]

lemma parseOp_delete (did : Did) (blocks : BlockMap) (op : RepoOp)
    (h : op.action = .delete) :
    parseOp did blocks op =
      some (prepareDelete did (parseDataKey op.path).1 (parseDataKey op.path).2) := by
  simp only [parseOp]
  rw [if_pos h]

lemma parseOp_nocid (did : Did) (blocks : BlockMap) (op : RepoOp)
    (h1 : op.action ≠ .delete) (h2 : op.cid = none) :
    parseOp did blocks op = none := by
  simp only [parseOp]
  rw [if_neg h1, h2]

lemma parseOp_missing (did : Did) (blocks : BlockMap) (op : RepoOp) (c : Cid)
    (h1 : op.action ≠ .delete) (h2 : op.cid = some c) (h3 : blocks.get c = none) :
    parseOp did blocks op = none := by
  simp only [parseOp]
  rw [if_neg h1, h2]
  show (match blocks.get c with
    | none => none
    | some record =>
        if op.action = .create then
          some (prepareCreate did (parseDataKey op.path).1 (parseDataKey op.path).2 record false)
        else
          some (prepareUpdate did (parseDataKey op.path).1 (parseDataKey op.path).2 record false)) =
      none
  rw [h3]

lemma parseOp_create (did : Did) (blocks : BlockMap) (op : RepoOp) (c : Cid)
    (record : LexRecord) (h1 : op.action = .create) (h2 : op.cid = some c)
    (h3 : blocks.get c = some record) :
    parseOp did blocks op =
      some (prepareCreate did (parseDataKey op.path).1 (parseDataKey op.path).2 record false) := by
  simp only [parseOp]
  rw [if_neg (by rw [h1]; intro hh; cases hh), h2]
  show (match blocks.get c with
    | none => none
    | some record =>
        if op.action = .create then
          some (prepareCreate did (parseDataKey op.path).1 (parseDataKey op.path).2 record false)
        else
          some (prepareUpdate did (parseDataKey op.path).1 (parseDataKey op.path).2 record false)) =
      some (prepareCreate did (parseDataKey op.path).1 (parseDataKey op.path).2 record false)
  rw [h3]
  show (if op.action = .create then
      some (prepareCreate did (parseDataKey op.path).1 (parseDataKey op.path).2 record false)
    else
      some (prepareUpdate did (parseDataKey op.path).1 (parseDataKey op.path).2 record false)) =
    some (prepareCreate did (parseDataKey op.path).1 (parseDataKey op.path).2 record false)
  rw [if_pos h1]

lemma parseOp_update (did : Did) (blocks : BlockMap) (op : RepoOp) (c : Cid)
    (record : LexRecord) (h1 : op.action = .update) (h2 : op.cid = some c)
    (h3 : blocks.get c = some record) :
    parseOp did blocks op =
      some (prepareUpdate did (parseDataKey op.path).1 (parseDataKey op.path).2 record false) := by
  simp only [parseOp]
  rw [if_neg (by rw [h1]; intro hh; cases hh), h2]
  show (match blocks.get c with
    | none => none
    | some record =>
        if op.action = .create then
          some (prepareCreate did (parseDataKey op.path).1 (parseDataKey op.path).2 record false)
        else
          some (prepareUpdate did (parseDataKey op.path).1 (parseDataKey op.path).2 record false)) =
      some (prepareUpdate did (parseDataKey op.path).1 (parseDataKey op.path).2 record false)
  rw [h3]
  show (if op.action = .create then
      some (prepareCreate did (parseDataKey op.path).1 (parseDataKey op.path).2 record false)
    else
      some (prepareUpdate did (parseDataKey op.path).1 (parseDataKey op.path).2 record false)) =
    some (prepareUpdate did (parseDataKey op.path).1 (parseDataKey op.path).2 record false)
  rw [if_neg (by rw [h1]; intro hh; cases hh)]

lemma runTask_commit (evt : CommitEvt) (w : World) :
    runTask (.commit evt) w = commitTask evt w := rfl

lemma runTask_deletion (did : Did) (w : World) :
    runTask (.deletion did) w = deletionTask did w := rfl

lemma commitTask_genesis (evt : CommitEvt) (w : World)
    (h1 : evt.since = none) (h2 : lookupActor w evt.repo = none) :
    commitTask evt w =
      .ok (processRepoCreation evt (parseCommitEvt evt).1 (parseCommitEvt evt).2 w) := by
  simp only [commitTask]
  rw [if_pos ⟨h1, h2⟩]

lemma commitTask_nogenesis (evt : CommitEvt) (w : World)
    (h : ¬ (evt.since = none ∧ lookupActor w evt.repo = none)) :
    commitTask evt w = transactCommit evt (parseCommitEvt evt).1 (parseCommitEvt evt).2 w := by
  simp only [commitTask]
  rw [if_neg h]

lemma execTask_commit_genesis (evt : CommitEvt) (w : World)
    (h1 : evt.since = none) (h2 : lookupActor w evt.repo = none) :
    execTask (.commit evt) w =
      processRepoCreation evt (parseCommitEvt evt).1 (parseCommitEvt evt).2 w := by
  unfold execTask
  rw [runTask_commit, commitTask_genesis evt w h1 h2]

lemma execTask_commit_nogenesis (evt : CommitEvt) (w : World)
    (h : ¬ (evt.since = none ∧ lookupActor w evt.repo = none)) :
    execTask (.commit evt) w =
      match transactCommit evt (parseCommitEvt evt).1 (parseCommitEvt evt).2 w with
      | .ok w2 => w2
      | .error _ => w := by
  unfold execTask
  rw [runTask_commit, commitTask_nogenesis evt w h]

lemma transactCommit_missing (evt : CommitEvt) (writes : List PreparedWrite)
    (blocks : BlockMap) (w : World) (h : lookupActor w evt.repo = none) :
    transactCommit evt writes blocks w = .error evt.repo := by
  unfold transactCommit
  rw [h]

lemma transactCommit_gate (evt : CommitEvt) (writes : List PreparedWrite)
    (blocks : BlockMap) (w : World) (a : ActorState)
    (h : lookupActor w evt.repo = some a) (hg : revGe a.rev evt.rev = true) :
    transactCommit evt writes blocks w = .ok w := by
  unfold transactCommit
  rw [h]
  simp [hg]

lemma transactCommit_apply (evt : CommitEvt) (writes : List PreparedWrite)
    (blocks : BlockMap) (w : World) (a : ActorState)
    (h : lookupActor w evt.repo = some a) (hg : revGe a.rev evt.rev = false) :
    transactCommit evt writes blocks w =
      .ok (setActor w evt.repo (applyCommitTxn evt writes blocks w.now a)) := by
  unfold transactCommit
  rw [h]
  simp [hg]

/-- Applying the same commit event twice leaves the same stored state as
applying it once: whatever path the first application takes, the second one
is stopped by the revision gate (or fails identically). -/
lemma execCommit_twice (evt : CommitEvt) (w : World) :
    execTask (.commit evt) (execTask (.commit evt) w) = execTask (.commit evt) w := by
  by_cases hgen : evt.since = none ∧ lookupActor w evt.repo = none
  · rw [execTask_commit_genesis evt w hgen.1 hgen.2]
    have hl1 : lookupActor
        (processRepoCreation evt (parseCommitEvt evt).1 (parseCommitEvt evt).2 w) evt.repo =
        some { head := evt.commit, rev := evt.rev, blocks := (parseCommitEvt evt).2,
               records := indexWrites (parseCommitEvt evt).1 [],
               blobDb := processWriteBlobs (parseCommitEvt evt).1 w.now BlobDb.empty,
               keyId := w.keysIssued } := by
      unfold processRepoCreation
      exact lookupActor_setActor_self _ _ _
    have hcond : ¬ (evt.since = none ∧ lookupActor
        (processRepoCreation evt (parseCommitEvt evt).1 (parseCommitEvt evt).2 w) evt.repo = none) := by
      rintro ⟨-, h2⟩
      rw [hl1] at h2
      cases h2
    rw [execTask_commit_nogenesis evt _ hcond,
      transactCommit_gate evt _ _ _ _ hl1 (revGe_refl evt.rev)]
  · rw [execTask_commit_nogenesis evt w hgen]
    cases hla : lookupActor w evt.repo with
    | none =>
        rw [transactCommit_missing evt _ _ w hla]
        show execTask (.commit evt) w = w
        rw [execTask_commit_nogenesis evt w hgen, transactCommit_missing evt _ _ w hla]
    | some a0 =>
        by_cases hg : revGe a0.rev evt.rev = true
        · rw [transactCommit_gate evt _ _ w a0 hla hg]
          show execTask (.commit evt) w = w
          rw [execTask_commit_nogenesis evt w hgen, transactCommit_gate evt _ _ w a0 hla hg]
        · have hg' : revGe a0.rev evt.rev = false := by simpa using hg
          rw [transactCommit_apply evt _ _ w a0 hla hg']
          show execTask (.commit evt)
              (setActor w evt.repo
                (applyCommitTxn evt (parseCommitEvt evt).1 (parseCommitEvt evt).2 w.now a0)) =
            setActor w evt.repo
              (applyCommitTxn evt (parseCommitEvt evt).1 (parseCommitEvt evt).2 w.now a0)
          have hl2 : lookupActor
              (setActor w evt.repo
                (applyCommitTxn evt (parseCommitEvt evt).1 (parseCommitEvt evt).2 w.now a0))
              evt.repo =
              some (applyCommitTxn evt (parseCommitEvt evt).1 (parseCommitEvt evt).2 w.now a0) :=
            lookupActor_setActor_self _ _ _
          have hcond2 : ¬ (evt.since = none ∧ lookupActor
              (setActor w evt.repo
                (applyCommitTxn evt (parseCommitEvt evt).1 (parseCommitEvt evt).2 w.now a0))
              evt.repo = none) := by
            rintro ⟨-, h2⟩
            rw [hl2] at h2
            cases h2
          rw [execTask_commit_nogenesis evt _ hcond2,
            transactCommit_gate evt _ _ _ _ hl2 (revGe_refl evt.rev)]

/-! ### Claim theorems -/

/-- C1: for a commit event against an existing repository whose stored
revision is already `>=` the event's revision, commit application is a
complete no-op on the state; consequently applying any commit event twice
leaves the same stored state as applying it once. -/
theorem commit_revision_gate_idempotent (evt : CommitEvt) (w : World) (a : ActorState)
    (hex : lookupActor w evt.repo = some a) (hge : revGe a.rev evt.rev = true) :
    commitTask evt w = .ok w ∧
    ∀ w' : World,
      execTask (.commit evt) (execTask (.commit evt) w') = execTask (.commit evt) w' := by
  constructor
  · have hns : ¬ (evt.since = none ∧ lookupActor w evt.repo = none) := by
      rintro ⟨-, h2⟩
      rw [hex] at h2
      cases h2
    rw [commitTask_nogenesis evt w hns]
    exact transactCommit_gate evt _ _ w a hex hge
  · intro w'
    exact execCommit_twice evt w'

/-- Concrete witness for C1: a repository at revision `5` receiving a
commit event at revision `4` is left untouched, and double application of
that event coincides with single application. -/
def c1Evt : CommitEvt :=
  { repo := "did:w1", rev := "4", since := some "3", prev := none, commit := 7,
    ops := [], blocks := [] }

def c1Actor : ActorState :=
  { head := 3, rev := "5", blocks := [], records := [], blobDb := BlobDb.empty, keyId := 0 }

def c1World : World :=
  { actors := [("did:w1", c1Actor)], accounts := ["did:w1"], directories := [],
    keysIssued := 1, now := "t" }

theorem commit_revision_gate_idempotent_witness :
    commitTask c1Evt c1World = .ok c1World ∧
    execTask (.commit c1Evt) (execTask (.commit c1Evt) c1World) =
      execTask (.commit c1Evt) c1World :=
  ⟨(commit_revision_gate_idempotent c1Evt c1World c1Actor (by decide) (by decide)).1,
   (commit_revision_gate_idempotent c1Evt c1World c1Actor (by decide) (by decide)).2 c1World⟩

/-- C2: a commit event with null `since` for an account with no repository
performs genesis creation: the task succeeds, exactly one new repository
appears (that account's; every other account's entry is untouched), its
first stored revision is the event's revision, exactly one fresh signing
identity is issued (the key counter advances by one and the new repository
holds the fresh key), and the commit's writes are indexed and its blob
references processed into the new repository. -/
theorem genesis_creation (evt : CommitEvt) (w : World)
    (hsince : evt.since = none) (habs : lookupActor w evt.repo = none) :
    ∃ w' a, commitTask evt w = .ok w' ∧
      lookupActor w' evt.repo = some a ∧
      a.rev = evt.rev ∧
      a.keyId = w.keysIssued ∧
      w'.keysIssued = w.keysIssued + 1 ∧
      (∀ d, d ≠ evt.repo → lookupActor w' d = lookupActor w d) ∧
      a.records = indexWrites (parseCommitEvt evt).1 [] ∧
      a.blobDb = processWriteBlobs (parseCommitEvt evt).1 w.now BlobDb.empty := by
  refine ⟨processRepoCreation evt (parseCommitEvt evt).1 (parseCommitEvt evt).2 w,
    { head := evt.commit, rev := evt.rev, blocks := (parseCommitEvt evt).2,
      records := indexWrites (parseCommitEvt evt).1 [],
      blobDb := processWriteBlobs (parseCommitEvt evt).1 w.now BlobDb.empty,
      keyId := w.keysIssued },
    commitTask_genesis evt w hsince habs, ?_, rfl, rfl, ?_, ?_, rfl, rfl⟩
  · unfold processRepoCreation
    exact lookupActor_setActor_self _ _ _
  · unfold processRepoCreation
    rw [setActor_keysIssued]
  · intro d hd
    unfold processRepoCreation
    rw [lookupActor_setActor_other _ _ _ _ hd]
    rfl

def c2Evt : CommitEvt :=
  { repo := "did:new", rev := "1", since := none, prev := none, commit := 11,
    ops := [ { action := .create, path := "app/rec", cid := some 4 } ],
    blocks := [(4, { payload := [9], blobs := [⟨21, "image/png", 5⟩] })] }

def c2World : World :=
  { actors := [], accounts := [], directories := [], keysIssued := 3, now := "t0" }

theorem genesis_creation_witness :
    ∃ w' a, commitTask c2Evt c2World = .ok w' ∧
      lookupActor w' c2Evt.repo = some a ∧
      a.rev = c2Evt.rev ∧
      a.keyId = c2World.keysIssued ∧
      w'.keysIssued = c2World.keysIssued + 1 ∧
      (∀ d, d ≠ c2Evt.repo → lookupActor w' d = lookupActor c2World d) ∧
      a.records = indexWrites (parseCommitEvt c2Evt).1 [] ∧
      a.blobDb = processWriteBlobs (parseCommitEvt c2Evt).1 c2World.now BlobDb.empty :=
  genesis_creation c2Evt c2World (by decide) (by decide)

/-- C10: a commit event with null `since` for an account whose repository
already exists goes through the ordinary transactional path (with its
revision gate); no new signing identity is generated and no repository is
created or destroyed. -/
theorem null_since_existing_repo (evt : CommitEvt) (w : World) (a : ActorState)
    (_hsince : evt.since = none) (hex : lookupActor w evt.repo = some a) :
    commitTask evt w = transactCommit evt (parseCommitEvt evt).1 (parseCommitEvt evt).2 w ∧
    (execTask (.commit evt) w).keysIssued = w.keysIssued ∧
    ∀ d, (lookupActor (execTask (.commit evt) w) d).isSome =
      (lookupActor w d).isSome := by
  have hcond : ¬ (evt.since = none ∧ lookupActor w evt.repo = none) := by
    rintro ⟨-, h2⟩
    rw [hex] at h2
    cases h2
  by_cases hg : revGe a.rev evt.rev = true
  · have hexec : execTask (.commit evt) w = w := by
      rw [execTask_commit_nogenesis evt w hcond, transactCommit_gate evt _ _ w a hex hg]
    exact ⟨commitTask_nogenesis evt w hcond, by rw [hexec], fun d => by rw [hexec]⟩
  · have hg' : revGe a.rev evt.rev = false := Bool.eq_false_iff.mpr hg
    have hexec : execTask (.commit evt) w =
        setActor w evt.repo
          (applyCommitTxn evt (parseCommitEvt evt).1 (parseCommitEvt evt).2 w.now a) := by
      rw [execTask_commit_nogenesis evt w hcond, transactCommit_apply evt _ _ w a hex hg']
    refine ⟨commitTask_nogenesis evt w hcond, ?_, ?_⟩
    · rw [hexec, setActor_keysIssued]
    · intro d
      rw [hexec]
      by_cases hd : d = evt.repo
      · subst hd
        rw [lookupActor_setActor_self, hex]
        rfl
      · rw [lookupActor_setActor_other _ _ _ _ hd]

def c10Evt : CommitEvt :=
  { repo := "did:w1", rev := "9", since := none, prev := none, commit := 13,
    ops := [], blocks := [] }

theorem null_since_existing_repo_witness :
    commitTask c10Evt c1World =
      transactCommit c10Evt (parseCommitEvt c10Evt).1 (parseCommitEvt c10Evt).2 c1World ∧
    (execTask (.commit c10Evt) c1World).keysIssued = c1World.keysIssued ∧
    ∀ d, (lookupActor (execTask (.commit c10Evt) c1World) d).isSome =
      (lookupActor c1World d).isSome :=
  null_since_existing_repo c10Evt c1World c1Actor (by decide) (by decide)

/-- C3: the prepared-write list is exactly the resolvable ops in order
(dropped ops are skipped, the rest proceed); a delete op is always
prepared, never dropped; a create/update op is dropped precisely when it
has no content hash or its hash is absent from the event's decoded block
bundle. -/
theorem unresolvable_ops_dropped (evt : CommitEvt) (op : RepoOp) :
    (parseCommitEvt evt).1 = evt.ops.filterMap (parseOp evt.repo evt.blocks) ∧
    (op.action = .delete →
      parseOp evt.repo evt.blocks op =
        some (prepareDelete evt.repo (parseDataKey op.path).1 (parseDataKey op.path).2)) ∧
    (op.action ≠ .delete →
      (parseOp evt.repo evt.blocks op = none ↔
        op.cid = none ∨ ∃ c, op.cid = some c ∧ evt.blocks.get c = none)) := by
  refine ⟨rfl, ?_, ?_⟩
  · intro hdel
    exact parseOp_delete evt.repo evt.blocks op hdel
  · intro hnd
    constructor
    · intro hnone
      cases hc : op.cid with
      | none => exact Or.inl rfl
      | some c =>
          cases hb : evt.blocks.get c with
          | none => exact Or.inr ⟨c, rfl, hb⟩
          | some record =>
              cases haction : op.action with
              | delete => exact absurd haction hnd
              | create =>
                  rw [parseOp_create evt.repo evt.blocks op c record haction hc hb] at hnone
                  cases hnone
              | update =>
                  rw [parseOp_update evt.repo evt.blocks op c record haction hc hb] at hnone
                  cases hnone
    · intro hdisj
      rcases hdisj with h2 | ⟨c, hc, hb⟩
      · exact parseOp_nocid evt.repo evt.blocks op hnd h2
      · exact parseOp_missing evt.repo evt.blocks op c hnd hc hb

def c3Evt : CommitEvt :=
  { repo := "did:a", rev := "2", since := some "1", prev := none, commit := 5,
    ops := [], blocks := [(4, { payload := [1], blobs := [] })] }

def c3OpDangling : RepoOp := { action := .update, path := "app/r1", cid := some 9 }

theorem unresolvable_ops_dropped_witness :
    parseOp c3Evt.repo c3Evt.blocks c3OpDangling = none ∧
    parseOp c3Evt.repo c3Evt.blocks { action := .delete, path := "app/r2", cid := none } =
      some (prepareDelete "did:a" "app" "r2") :=
  ⟨((unresolvable_ops_dropped c3Evt c3OpDangling).2.2 (by decide)).mpr
      (Or.inr ⟨9, rfl, by decide⟩),
   (unresolvable_ops_dropped c3Evt { action := .delete, path := "app/r2", cid := none }).2.1 rfl⟩

/-- C7: every create/update write replayed from a commit event carries
exactly the decoded record (and its blob references) resolved from the
event's block bundle while its schema-validation flag is false, and every
delete write carries no blob descriptors. -/
theorem replay_write_invariants (evt : CommitEvt) (w : PreparedWrite)
    (hw : w ∈ (parseCommitEvt evt).1) :
    (w.isDelete = true → w.blobRefs = []) ∧
    (w.isCreateOrUpdate = true →
      ∃ op ∈ evt.ops, ∃ c record, op.cid = some c ∧ evt.blocks.get c = some record ∧
        w.recordOf = some record ∧ w.blobRefs = blobsForWrite record ∧
        w.validateFlag = false) := by
  obtain ⟨op, hop, hpo⟩ := List.mem_filterMap.mp hw
  cases haction : op.action with
  | delete =>
      rw [parseOp_delete evt.repo evt.blocks op haction] at hpo
      have hwd : w = prepareDelete evt.repo (parseDataKey op.path).1 (parseDataKey op.path).2 :=
        (Option.some.inj hpo).symm
      subst hwd
      refine ⟨fun _ => rfl, fun hcu => ?_⟩
      simp [prepareDelete, PreparedWrite.isCreateOrUpdate] at hcu
  | create =>
      cases hc : op.cid with
      | none =>
          rw [parseOp_nocid evt.repo evt.blocks op (by rw [haction]; intro hh; cases hh) hc] at hpo
          cases hpo
      | some c =>
          cases hb : evt.blocks.get c with
          | none =>
              rw [parseOp_missing evt.repo evt.blocks op c
                (by rw [haction]; intro hh; cases hh) hc hb] at hpo
              cases hpo
          | some record =>
              rw [parseOp_create evt.repo evt.blocks op c record haction hc hb] at hpo
              have hwc : w = prepareCreate evt.repo (parseDataKey op.path).1
                  (parseDataKey op.path).2 record false := (Option.some.inj hpo).symm
              subst hwc
              refine ⟨fun hd => ?_, fun _ => ⟨op, hop, c, record, hc, hb, rfl, rfl, rfl⟩⟩
              simp [prepareCreate, PreparedWrite.isDelete] at hd
  | update =>
      cases hc : op.cid with
      | none =>
          rw [parseOp_nocid evt.repo evt.blocks op (by rw [haction]; intro hh; cases hh) hc] at hpo
          cases hpo
      | some c =>
          cases hb : evt.blocks.get c with
          | none =>
              rw [parseOp_missing evt.repo evt.blocks op c
                (by rw [haction]; intro hh; cases hh) hc hb] at hpo
              cases hpo
          | some record =>
              rw [parseOp_update evt.repo evt.blocks op c record haction hc hb] at hpo
              have hwu : w = prepareUpdate evt.repo (parseDataKey op.path).1
                  (parseDataKey op.path).2 record false := (Option.some.inj hpo).symm
              subst hwu
              refine ⟨fun hd => ?_, fun _ => ⟨op, hop, c, record, hc, hb, rfl, rfl, rfl⟩⟩
              simp [prepareUpdate, PreparedWrite.isDelete] at hd

theorem replay_write_invariants_witness :
    ((prepareCreate "did:new" "app" "rec"
        { payload := [9], blobs := [⟨21, "image/png", 5⟩] } false).isDelete = true →
      (prepareCreate "did:new" "app" "rec"
        { payload := [9], blobs := [⟨21, "image/png", 5⟩] } false).blobRefs = []) ∧
    ((prepareCreate "did:new" "app" "rec"
        { payload := [9], blobs := [⟨21, "image/png", 5⟩] } false).isCreateOrUpdate = true →
      ∃ op ∈ c2Evt.ops, ∃ c record, op.cid = some c ∧ c2Evt.blocks.get c = some record ∧
        (prepareCreate "did:new" "app" "rec"
          { payload := [9], blobs := [⟨21, "image/png", 5⟩] } false).recordOf = some record ∧
        (prepareCreate "did:new" "app" "rec"
          { payload := [9], blobs := [⟨21, "image/png", 5⟩] } false).blobRefs =
          blobsForWrite record ∧
        (prepareCreate "did:new" "app" "rec"
          { payload := [9], blobs := [⟨21, "image/png", 5⟩] } false).validateFlag = false) :=
  replay_write_invariants c2Evt
    (prepareCreate "did:new" "app" "rec"
      { payload := [9], blobs := [⟨21, "image/png", 5⟩] } false) (by decide)

/-- C6: an account event whose status is not deleted is ignored (no queue
or state change); a deleted-status event enqueues, keyed by the account id,
a task that removes the account's storage directory and then its
account-management record; the removal always succeeds — in particular as a
tolerated no-op when the directory is already absent (where a strict
removal would fail). -/
theorem account_event_deletion (evt : AccountEvt) (q : UserQueues) (w : World)
    (habs : storageDir evt.did ∉ w.directories) :
    (evt.status ≠ .deleted → processAccountEvt evt q = q) ∧
    (evt.status = .deleted →
      processAccountEvt evt q = addToUser q evt.did (.deletion evt.did)) ∧
    (∀ w0 : World, runTask (.deletion evt.did) w0 =
      .ok { w0 with
              directories := w0.directories.filter (fun d => d != storageDir evt.did),
              accounts := w0.accounts.filter (fun d => d != evt.did) }) ∧
    rmDir (storageDir evt.did) w = none ∧
    runTask (.deletion evt.did) w =
      .ok { w with accounts := w.accounts.filter (fun d => d != evt.did) } := by
  have hgen : ∀ w0 : World, runTask (.deletion evt.did) w0 =
      .ok { w0 with
              directories := w0.directories.filter (fun d => d != storageDir evt.did),
              accounts := w0.accounts.filter (fun d => d != evt.did) } := by
    intro w0
    rw [runTask_deletion]
    unfold deletionTask rmIfExists rmDir
    by_cases hmem : storageDir evt.did ∈ w0.directories
    · rw [if_pos hmem]
      rfl
    · rw [if_neg hmem]
      have hfe : w0.directories.filter (fun d => d != storageDir evt.did) = w0.directories := by
        apply List.filter_eq_self.mpr
        intro d hd
        simp only [bne_iff_ne, ne_eq, decide_eq_true_eq]
        intro hdd
        exact hmem (hdd ▸ hd)
      rw [hfe]
      rfl
  have hrmd : rmDir (storageDir evt.did) w = none := by
    unfold rmDir
    rw [if_neg habs]
  refine ⟨?_, ?_, hgen, hrmd, ?_⟩
  · intro hst
    unfold processAccountEvt
    rw [if_pos hst]
  · intro hst
    unfold processAccountEvt
    rw [if_neg (by rw [hst]; intro hh; exact hh rfl)]
  · rw [hgen w]
    have hfe : w.directories.filter (fun d => d != storageDir evt.did) = w.directories := by
      apply List.filter_eq_self.mpr
      intro d hd
      simp only [bne_iff_ne, ne_eq, decide_eq_true_eq]
      intro hdd
      exact habs (hdd ▸ hd)
    rw [hfe]

def c6Evt : AccountEvt := { did := "did:b", status := .deleted }

theorem account_event_deletion_witness :
    processAccountEvt { did := "did:b", status := .active } (UserQueues.empty 2) =
      UserQueues.empty 2 ∧
    processAccountEvt c6Evt (UserQueues.empty 2) =
      addToUser (UserQueues.empty 2) "did:b" (.deletion "did:b") ∧
    rmDir (storageDir "did:b") c2World = none ∧
    runTask (.deletion "did:b") c2World =
      .ok { c2World with accounts := c2World.accounts.filter (fun d => d != "did:b") } :=
  ⟨(account_event_deletion { did := "did:b", status := .active }
      (UserQueues.empty 2) c2World (by decide)).1 (by decide),
   (account_event_deletion c6Evt (UserQueues.empty 2) c2World (by decide)).2.1 rfl,
   (account_event_deletion c6Evt (UserQueues.empty 2) c2World (by decide)).2.2.2.1,
   (account_event_deletion c6Evt (UserQueues.empty 2) c2World (by decide)).2.2.2.2⟩

/-- C4 (counterexample): the claim that blob reference reconciliation
happens only after the block-storage and record-index mutations have
completed is false on the code: the commit transaction awaits
`Promise.all` of the three sub-operations, so the trace in which all three
start before any finishes — exactly what the JavaScript event loop does
with the three already-invoked promises — is admitted, and in it
reconciliation is not preceded by the completed mutations; the asserted
ordering fails over the admitted traces. -/
theorem blob_reconciliation_not_sequenced :
    eagerStartTrace ∈ commitTxnTraces ∧
    blobsAfterMutations eagerStartTrace = false ∧
    commitTxnTraces.all blobsAfterMutations = false :=
  ⟨by decide, by decide, by decide⟩

/-- C4 (amended): blob reference reconciliation is performed within the
same atomic commit transaction as the block-storage and record-index
mutations, awaited together with them rather than sequenced after them:
every admitted trace runs each sub-operation start-to-finish inside the
transaction, reconciliation may begin before the storage mutation
completes, and the transaction's resulting actor state applies all three
effects as one unit. -/
theorem blob_reconciliation_concurrent_in_txn :
    commitTxnTraces.all (fun t =>
      beforeIn t (TxnAct.applyCommitOp, Phase.start) (TxnAct.applyCommitOp, Phase.finish) &&
      beforeIn t (TxnAct.indexWritesOp, Phase.start) (TxnAct.indexWritesOp, Phase.finish) &&
      beforeIn t (TxnAct.trackBlobsOp, Phase.start) (TxnAct.trackBlobsOp, Phase.finish)) = true ∧
    commitTxnTraces.any (fun t =>
      beforeIn t (TxnAct.trackBlobsOp, Phase.start) (TxnAct.applyCommitOp, Phase.finish)) = true ∧
    ∀ (evt : CommitEvt) (writes : List PreparedWrite) (blocks : BlockMap) (now : String)
      (a : ActorState),
      applyCommitTxn evt writes blocks now a =
        { a with head := evt.commit, rev := evt.rev, blocks := a.blocks ++ blocks,
                 records := indexWrites writes a.records,
                 blobDb := trackBlobs writes now a.blobDb } :=
  ⟨by decide, by decide, fun _ _ _ _ _ => rfl⟩

/-- C8: the orchestrator is constructed from a start cursor and a
concurrency limit and exposes its cursor; a page fetch that returns an
empty page leaves the whole state (cursor included) unchanged; a
non-empty page advances the cursor to the page's last event's sequence
number in the same step that delivers the queues with every event of the
page dispatched. -/
theorem orchestrator_cursor_discipline (cursor concurrency : Nat) (w : World)
    (log : List SeqEvt) (s : RecoverState) :
    (recovererInit cursor concurrency w).cursor = cursor ∧
    (recovererInit cursor concurrency w).queues = UserQueues.empty concurrency ∧
    (pageFor log s.cursor = [] → loadNextPage log s = (true, s)) ∧
    (∀ lastEvt, (pageFor log s.cursor).getLast? = some lastEvt →
      loadNextPage log s =
        (false, { s with cursor := lastEvt.seq,
                         queues := dispatchPage (pageFor log s.cursor) s.queues })) := by
  refine ⟨rfl, rfl, ?_, ?_⟩
  · intro hempty
    simp only [loadNextPage]
    rw [hempty]
    rfl
  · intro lastEvt hlast
    simp only [loadNextPage]
    rw [hlast]

def c8Log : List SeqEvt := [{ seq := 1, evt := .account c6Evt }]

theorem orchestrator_cursor_discipline_witness :
    (recovererInit 5 2 c2World).cursor = 5 ∧
    loadNextPage c8Log (recovererInit 5 2 c2World) = (true, recovererInit 5 2 c2World) ∧
    loadNextPage c8Log (recovererInit 0 2 c2World) =
      (false, { recovererInit 0 2 c2World with
                  cursor := 1,
                  queues := dispatchPage (pageFor c8Log (recovererInit 0 2 c2World).cursor)
                    (recovererInit 0 2 c2World).queues }) :=
  ⟨(orchestrator_cursor_discipline 5 2 c2World c8Log (recovererInit 5 2 c2World)).1,
   (orchestrator_cursor_discipline 5 2 c2World c8Log (recovererInit 5 2 c2World)).2.2.1
     (by decide),
   (orchestrator_cursor_discipline 0 2 c2World c8Log (recovererInit 0 2 c2World)).2.2.2
     { seq := 1, evt := .account c6Evt } (by decide)⟩

lemma filter_length_mono {α : Type} {p q : α → Bool} (l : List α)
    (himp : ∀ x, q x = true → p x = true) :
    (l.filter q).length ≤ (l.filter p).length := by
  induction l with
  | nil => simp
  | cons a t ih =>
      rw [List.filter_cons, List.filter_cons]
      cases hq : q a
      · cases hp : p a
        · simpa using ih
        · simpa using Nat.le_succ_of_le ih
      · rw [himp a hq]
        simpa using ih

lemma filter_length_lt {α : Type} {p q : α → Bool} (l : List α)
    (himp : ∀ x, q x = true → p x = true) (e : α) (he : e ∈ l)
    (hpe : p e = true) (hqe : q e = false) :
    (l.filter q).length < (l.filter p).length := by
  induction l with
  | nil => cases he
  | cons a t ih =>
      rw [List.filter_cons, List.filter_cons]
      rcases List.mem_cons.mp he with rfl | hat
      · rw [hpe, hqe]
        simpa using Nat.lt_succ_of_le (filter_length_mono t himp)
      · cases hq : q a
        · cases hp : p a
          · simpa using ih hat
          · simpa using Nat.lt_succ_of_lt (ih hat)
        · rw [himp a hq]
          simpa using ih hat

lemma pageFor_progress (log : List SeqEvt) (c : Nat) (e : SeqEvt)
    (hlast : (pageFor log c).getLast? = some e) :
    (log.filter (fun x => e.seq < x.seq)).length <
      (log.filter (fun x => c < x.seq)).length := by
  have hmemLast : e ∈ (pageFor log c).getLast? := Option.mem_def.mpr hlast
  obtain ⟨hne, hEq⟩ := List.mem_getLast?_eq_getLast hmemLast
  have hmem : e ∈ pageFor log c := hEq ▸ List.getLast_mem hne
  have hmemF : e ∈ log.filter (fun x => c < x.seq) :=
    List.take_subset _ _ hmem
  have hmemLog : e ∈ log := (List.mem_filter.mp hmemF).1
  have hce : c < e.seq := by
    have := (List.mem_filter.mp hmemF).2
    simpa using this
  refine filter_length_lt log ?_ e hmemLog (by simpa using hce) (by simp)
  intro x hx
  simp only [decide_eq_true_eq] at hx ⊢
  exact Nat.lt_trans hce hx

lemma runLoop_terminates (log : List SeqEvt) :
    ∀ fuel s, (log.filter (fun x => s.cursor < x.seq)).length < fuel →
      ∃ sExit, runLoop log fuel s = some sExit ∧ pageFor log sExit.cursor = [] := by
  intro fuel
  induction fuel with
  | zero => intro s h; exact absurd h (Nat.not_lt_zero _)
  | succ n ih =>
      intro s h
      cases hlast : (pageFor log s.cursor).getLast? with
      | none =>
          have hpage : pageFor log s.cursor = [] := List.getLast?_eq_none_iff.mp hlast
          refine ⟨{ s with queues := dispatchPage (pageFor log s.cursor) s.queues }, ?_, ?_⟩
          · simp only [runLoop, loadNextPage]
            rw [hlast]
          · exact hpage
      | some lastEvt =>
          have hprog := pageFor_progress log s.cursor lastEvt hlast
          have hlt : (log.filter (fun x => lastEvt.seq < x.seq)).length < n := by omega
          obtain ⟨sExit, hrun, hpage⟩ :=
            ih { s with cursor := lastEvt.seq,
                        queues := dispatchPage (pageFor log s.cursor) s.queues } hlt
          refine ⟨sExit, ?_, hpage⟩
          simp only [runLoop, loadNextPage]
          rw [hlast]
          exact hrun

lemma runLoop_exit_empty (log : List SeqEvt) :
    ∀ fuel s sExit, runLoop log fuel s = some sExit →
      pageFor log sExit.cursor = [] := by
  intro fuel
  induction fuel with
  | zero => intro s sExit h; cases h
  | succ n ih =>
      intro s sExit h
      simp only [runLoop, loadNextPage] at h
      cases hlast : (pageFor log s.cursor).getLast? with
      | none =>
          rw [hlast] at h
          have h' : some { s with queues := dispatchPage (pageFor log s.cursor) s.queues } =
              some sExit := h
          have hs : sExit = { s with queues := dispatchPage (pageFor log s.cursor) s.queues } :=
            (Option.some.inj h').symm
          subst hs
          exact List.getLast?_eq_none_iff.mp hlast
      | some lastEvt =>
          rw [hlast] at h
          have h' : runLoop log n
              { s with cursor := lastEvt.seq,
                       queues := dispatchPage (pageFor log s.cursor) s.queues } = some sExit := h
          exact ih _ _ h'

/-- C9: given enough fuel for the finite log, the page-fetch loop of `run`
terminates, and it can only terminate on a state whose next page fetch is
empty (end-of-log); only then does `run` flush: its result is exactly the
final `processAll`, after which no queued task remains (every queued and
running task has been executed against the world). -/
theorem run_flushes_at_end_of_log (log : List SeqEvt) (s : RecoverState) (fuel : Nat)
    (hfuel : (log.filter (fun x => s.cursor < x.seq)).length < fuel) :
    ∃ sExit, runLoop log fuel s = some sExit ∧
      pageFor log sExit.cursor = [] ∧
      runRecoverer log fuel s = some (processAllState sExit) ∧
      (processAllState sExit).queues.main = [] ∧
      (processAllState sExit).world = drainQueues sExit.queues sExit.world ∧
      ∀ fuel2 s2 sExit2, runLoop log fuel2 s2 = some sExit2 →
        pageFor log sExit2.cursor = [] := by
  obtain ⟨sExit, hrun, hpage⟩ := runLoop_terminates log fuel s hfuel
  refine ⟨sExit, hrun, hpage, ?_, rfl, rfl, fun fuel2 s2 sExit2 h2 =>
    runLoop_exit_empty log fuel2 s2 sExit2 h2⟩
  unfold runRecoverer
  rw [hrun]
  rfl

theorem run_flushes_at_end_of_log_witness :
    ∃ sExit, runLoop c8Log 2 (recovererInit 0 2 c2World) = some sExit ∧
      pageFor c8Log sExit.cursor = [] ∧
      runRecoverer c8Log 2 (recovererInit 0 2 c2World) = some (processAllState sExit) ∧
      (processAllState sExit).queues.main = [] ∧
      (processAllState sExit).world = drainQueues sExit.queues sExit.world ∧
      ∀ fuel2 s2 sExit2, runLoop c8Log fuel2 s2 = some sExit2 →
        pageFor c8Log sExit2.cursor = [] :=
  run_flushes_at_end_of_log c8Log (recovererInit 0 2 c2World) 2 (by decide)

/-! ### Lemmas for blob reconciliation idempotence (C5) -/

/-- The `blob` table keys (conflict targets). -/
def blobKeys (db : BlobDb) : List Cid :=
  db.blob.map (fun row => row.cid)

lemma insertBlob_recordBlob (db : BlobDb) (r : BlobRow) :
    (insertBlob db r).recordBlob = db.recordBlob := by
  unfold insertBlob
  by_cases h : db.blob.any (fun row => row.cid == r.cid) = true
  · rw [if_pos h]
  · rw [if_neg h]

lemma insertRecordBlob_keys (db : BlobDb) (bc : Cid) (ru : String) :
    blobKeys (insertRecordBlob db bc ru) = blobKeys db := by
  unfold insertRecordBlob
  by_cases h : (bc, ru) ∈ db.recordBlob
  · rw [if_pos h]
  · rw [if_neg h]
    rfl

lemma insertRecordBlob_of_mem (db : BlobDb) (bc : Cid) (ru : String)
    (h : (bc, ru) ∈ db.recordBlob) : insertRecordBlob db bc ru = db := by
  unfold insertRecordBlob
  rw [if_pos h]

lemma insertBlob_of_key_mem (db : BlobDb) (r : BlobRow)
    (h : r.cid ∈ blobKeys db) : insertBlob db r = db := by
  obtain ⟨row, hrow, hc⟩ := List.mem_map.mp h
  unfold insertBlob
  rw [if_pos (List.any_eq_true.mpr ⟨row, hrow, by simp [hc]⟩)]

lemma nodup_append_single {α : Type} (l : List α) (a : α)
    (hl : l.Nodup) (ha : a ∉ l) : (l ++ [a]).Nodup := by
  simp [List.nodup_append, hl, ha]

lemma key_not_mem_of_any_false (db : BlobDb) (r : BlobRow)
    (h : db.blob.any (fun row => row.cid == r.cid) = false) :
    r.cid ∉ blobKeys db := by
  intro hmem
  obtain ⟨row, hrow, hc⟩ := List.mem_map.mp hmem
  rw [List.any_eq_false] at h
  exact h row hrow (by simp [hc])

lemma trackStep_recordBlob_mono (now : String) (db : BlobDb)
    (p : PreparedBlobRef × String) (r : Cid × String) (h : r ∈ db.recordBlob) :
    r ∈ (trackStep now db p).recordBlob := by
  unfold trackStep
  rw [insertBlob_recordBlob]
  unfold insertRecordBlob
  by_cases hm : (p.1.cid, p.2) ∈ db.recordBlob
  · rw [if_pos hm]
    exact h
  · rw [if_neg hm]
    exact List.mem_append_left _ h

lemma trackStep_recordBlob_new (now : String) (db : BlobDb)
    (p : PreparedBlobRef × String) (r : Cid × String)
    (h : r ∈ (trackStep now db p).recordBlob) :
    r ∈ db.recordBlob ∨ r = (p.1.cid, p.2) := by
  unfold trackStep at h
  rw [insertBlob_recordBlob] at h
  unfold insertRecordBlob at h
  by_cases hm : (p.1.cid, p.2) ∈ db.recordBlob
  · rw [if_pos hm] at h
    exact Or.inl h
  · rw [if_neg hm] at h
    rcases List.mem_append.mp h with h1 | h2
    · exact Or.inl h1
    · exact Or.inr (by simpa using h2)

lemma trackStep_recordBlob_key (now : String) (db : BlobDb)
    (p : PreparedBlobRef × String) :
    (p.1.cid, p.2) ∈ (trackStep now db p).recordBlob := by
  unfold trackStep
  rw [insertBlob_recordBlob]
  unfold insertRecordBlob
  by_cases hm : (p.1.cid, p.2) ∈ db.recordBlob
  · rw [if_pos hm]
    exact hm
  · rw [if_neg hm]
    exact List.mem_append_right _ (by simp)

lemma insertBlob_keys_mono (db : BlobDb) (r : BlobRow) (c : Cid)
    (h : c ∈ blobKeys db) : c ∈ blobKeys (insertBlob db r) := by
  unfold insertBlob
  by_cases hb : db.blob.any (fun row => row.cid == r.cid) = true
  · rw [if_pos hb]
    exact h
  · rw [if_neg hb]
    show c ∈ (db.blob ++ [r]).map (fun row => row.cid)
    rw [List.map_append]
    exact List.mem_append_left _ h

lemma insertBlob_key_self (db : BlobDb) (r : BlobRow) :
    r.cid ∈ blobKeys (insertBlob db r) := by
  unfold insertBlob
  by_cases hb : db.blob.any (fun row => row.cid == r.cid) = true
  · rw [if_pos hb]
    obtain ⟨row, hrow, hc⟩ := List.any_eq_true.mp hb
    have hc' : row.cid = r.cid := by simpa using hc
    exact hc' ▸ List.mem_map_of_mem _ hrow
  · rw [if_neg hb]
    show r.cid ∈ (db.blob ++ [r]).map (fun row => row.cid)
    rw [List.map_append]
    exact List.mem_append_right _ (by simp)

lemma insertBlob_keys_nodup (db : BlobDb) (r : BlobRow)
    (h : (blobKeys db).Nodup) : (blobKeys (insertBlob db r)).Nodup := by
  unfold insertBlob
  by_cases hb : db.blob.any (fun row => row.cid == r.cid) = true
  · rw [if_pos hb]
    exact h
  · rw [if_neg hb]
    show ((db.blob ++ [r]).map (fun row => row.cid)).Nodup
    rw [List.map_append]
    exact nodup_append_single _ _ h
      (key_not_mem_of_any_false db r (Bool.eq_false_iff.mpr hb))

lemma trackStep_keys_mono (now : String) (db : BlobDb)
    (p : PreparedBlobRef × String) (c : Cid) (h : c ∈ blobKeys db) :
    c ∈ blobKeys (trackStep now db p) := by
  unfold trackStep
  apply insertBlob_keys_mono
  rw [insertRecordBlob_keys]
  exact h

lemma trackStep_key (now : String) (db : BlobDb) (p : PreparedBlobRef × String) :
    p.1.cid ∈ blobKeys (trackStep now db p) := by
  unfold trackStep
  exact insertBlob_key_self _ _

lemma foldl_recordBlob_mono (now : String) (ps : List (PreparedBlobRef × String)) :
    ∀ (db : BlobDb) (r : Cid × String), r ∈ db.recordBlob →
      r ∈ (ps.foldl (trackStep now) db).recordBlob := by
  induction ps with
  | nil => intro db r h; exact h
  | cons p t ih =>
      intro db r h
      exact ih _ _ (trackStep_recordBlob_mono now db p r h)

lemma foldl_recordBlob_new (now : String) (ps : List (PreparedBlobRef × String)) :
    ∀ (db : BlobDb) (r : Cid × String), r ∈ (ps.foldl (trackStep now) db).recordBlob →
      r ∈ db.recordBlob ∨ ∃ p ∈ ps, r = (p.1.cid, p.2) := by
  induction ps with
  | nil => intro db r h; exact Or.inl h
  | cons p t ih =>
      intro db r h
      rcases ih _ _ h with h1 | ⟨p', hp', he⟩
      · rcases trackStep_recordBlob_new now db p r h1 with h2 | h2
        · exact Or.inl h2
        · exact Or.inr ⟨p, List.mem_cons_self _ _, h2⟩
      · exact Or.inr ⟨p', List.mem_cons_of_mem _ hp', he⟩

lemma foldl_recordBlob_key (now : String) (ps : List (PreparedBlobRef × String)) :
    ∀ (db : BlobDb) (p : PreparedBlobRef × String), p ∈ ps →
      (p.1.cid, p.2) ∈ (ps.foldl (trackStep now) db).recordBlob := by
  induction ps with
  | nil => intro db p h; cases h
  | cons q t ih =>
      intro db p h
      rcases List.mem_cons.mp h with rfl | ht
      · exact foldl_recordBlob_mono now t _ _ (trackStep_recordBlob_key now db p)
      · exact ih _ _ ht

lemma foldl_keys_mono (now : String) (ps : List (PreparedBlobRef × String)) :
    ∀ (db : BlobDb) (c : Cid), c ∈ blobKeys db →
      c ∈ blobKeys (ps.foldl (trackStep now) db) := by
  induction ps with
  | nil => intro db c h; exact h
  | cons p t ih =>
      intro db c h
      exact ih _ _ (trackStep_keys_mono now db p c h)

lemma foldl_key (now : String) (ps : List (PreparedBlobRef × String)) :
    ∀ (db : BlobDb) (p : PreparedBlobRef × String), p ∈ ps →
      p.1.cid ∈ blobKeys (ps.foldl (trackStep now) db) := by
  induction ps with
  | nil => intro db p h; cases h
  | cons q t ih =>
      intro db p h
      rcases List.mem_cons.mp h with rfl | ht
      · exact foldl_keys_mono now t _ _ (trackStep_key now db p)
      · exact ih _ _ ht

lemma foldl_stable (now : String) (ps : List (PreparedBlobRef × String)) :
    ∀ db : BlobDb,
      (∀ p ∈ ps, (p.1.cid, p.2) ∈ db.recordBlob ∧ p.1.cid ∈ blobKeys db) →
      ps.foldl (trackStep now) db = db := by
  induction ps with
  | nil => intro db _; rfl
  | cons p t ih =>
      intro db h
      have hp := h p (List.mem_cons_self _ _)
      have hstep : trackStep now db p = db := by
        unfold trackStep
        rw [insertRecordBlob_of_mem db p.1.cid p.2 hp.1]
        exact insertBlob_of_key_mem db _ hp.2
      rw [List.foldl_cons, hstep]
      exact ih db (fun q hq => h q (List.mem_cons_of_mem _ hq))

lemma mem_blobPairsOf (writes : List PreparedWrite) (p : PreparedBlobRef × String)
    (h : p ∈ blobPairsOf writes) :
    ∃ w0 ∈ writes, w0.isCreateOrUpdate = true ∧ p.2 = w0.uri ∧ p.1 ∈ w0.blobRefs := by
  unfold blobPairsOf at h
  obtain ⟨w0, hw0, hp⟩ := List.mem_flatMap.mp h
  by_cases hcu : w0.isCreateOrUpdate = true
  · rw [if_pos hcu] at hp
    obtain ⟨b, hb, he⟩ := List.mem_map.mp hp
    refine ⟨w0, hw0, hcu, ?_, ?_⟩
    · rw [← he]
    · rw [← he]
      exact hb
  · rw [if_neg hcu] at hp
    cases hp

lemma pairwise_uri_inj (writes : List PreparedWrite)
    (h : writes.Pairwise (fun a b => a.uri ≠ b.uri)) :
    ∀ w1 ∈ writes, ∀ w2 ∈ writes, w1.uri = w2.uri → w1 = w2 := by
  have hsym : Symmetric (fun a b : PreparedWrite => a.uri ≠ b.uri) :=
    fun a b hab hba => hab hba.symm
  have hf := List.Pairwise.forall hsym h
  intro w1 h1 w2 h2 heq
  by_contra hne
  exact hf h1 h2 hne heq

lemma keepRow_of_write (writes : List PreparedWrite)
    (hdist : writes.Pairwise (fun a b => a.uri ≠ b.uri))
    (w0 : PreparedWrite) (hw0 : w0 ∈ writes) (b : PreparedBlobRef)
    (hb : b ∈ w0.blobRefs) :
    keepRow writes (b.cid, w0.uri) = true := by
  unfold keepRow
  have hany : writes.any (fun w =>
      w.uri == (b.cid, w0.uri).2 && !((blobCidsOf w).contains (b.cid, w0.uri).1)) = false := by
    rw [List.any_eq_false]
    intro w1 hw1
    intro hcontra
    rw [Bool.and_eq_true] at hcontra
    have huri : w1.uri = w0.uri := by simpa using hcontra.1
    have hweq : w1 = w0 := pairwise_uri_inj writes hdist w1 hw1 w0 hw0 huri
    subst hweq
    have hcid : b.cid ∈ blobCidsOf w1 := List.mem_map_of_mem _ hb
    have : (blobCidsOf w1).contains b.cid = true := by
      simpa [List.contains] using List.elem_eq_true_of_mem hcid
    rw [this] at hcontra
    simp at hcontra
  rw [hany]
  rfl

lemma trackStep_recordBlob_nodup (now : String) (db : BlobDb)
    (p : PreparedBlobRef × String) (h : db.recordBlob.Nodup) :
    (trackStep now db p).recordBlob.Nodup := by
  unfold trackStep
  rw [insertBlob_recordBlob]
  unfold insertRecordBlob
  by_cases hm : (p.1.cid, p.2) ∈ db.recordBlob
  · rw [if_pos hm]
    exact h
  · rw [if_neg hm]
    exact nodup_append_single _ _ h hm

lemma trackStep_keys_nodup (now : String) (db : BlobDb)
    (p : PreparedBlobRef × String) (h : (blobKeys db).Nodup) :
    (blobKeys (trackStep now db p)).Nodup := by
  unfold trackStep
  apply insertBlob_keys_nodup
  rw [insertRecordBlob_keys]
  exact h

lemma foldl_recordBlob_nodup (now : String) (ps : List (PreparedBlobRef × String)) :
    ∀ db : BlobDb, db.recordBlob.Nodup →
      (ps.foldl (trackStep now) db).recordBlob.Nodup := by
  induction ps with
  | nil => intro db h; exact h
  | cons p t ih =>
      intro db h
      exact ih _ (trackStep_recordBlob_nodup now db p h)

lemma foldl_keys_nodup (now : String) (ps : List (PreparedBlobRef × String)) :
    ∀ db : BlobDb, (blobKeys db).Nodup →
      (blobKeys (ps.foldl (trackStep now) db)).Nodup := by
  induction ps with
  | nil => intro db h; exact h
  | cons p t ih =>
      intro db h
      exact ih _ (trackStep_keys_nodup now db p h)

/-- C5: blob reference reconciliation is idempotent.  Re-running
`trackBlobs` for the same write set (whatever the new transactor
timestamp, so a conflicting metadata insert is ignored, not overwritten)
leaves the database exactly as the first run left it, and a run never
introduces duplicate association or metadata rows. -/
theorem blob_reconciliation_idempotent (writes : List PreparedWrite)
    (now now' : String) (db : BlobDb)
    (hdist : writes.Pairwise (fun a b => a.uri ≠ b.uri)) :
    trackBlobs writes now' (trackBlobs writes now db) = trackBlobs writes now db ∧
    (db.recordBlob.Nodup → (trackBlobs writes now db).recordBlob.Nodup) ∧
    ((blobKeys db).Nodup → (blobKeys (trackBlobs writes now db)).Nodup) := by
  refine ⟨?_, ?_, ?_⟩
  · set X := (blobPairsOf writes).foldl (trackStep now) (deleteDereferencedBlobs writes db)
      with hX
    have hfilter : X.recordBlob.filter (keepRow writes) = X.recordBlob := by
      apply List.filter_eq_self.mpr
      intro r hr
      rw [hX] at hr
      rcases foldl_recordBlob_new now (blobPairsOf writes) _ r hr with h1 | ⟨p, hp, he⟩
      · have h1' : r ∈ db.recordBlob.filter (keepRow writes) := h1
        exact List.of_mem_filter h1'
      · subst he
        obtain ⟨w0, hw0, _, huri, hb⟩ := mem_blobPairsOf writes p hp
        rw [huri]
        exact keepRow_of_write writes hdist w0 hw0 p.1 hb
    have hdel1 : deleteDereferencedBlobs writes X = X := by
      show ({ recordBlob := X.recordBlob.filter (keepRow writes), blob := X.blob } : BlobDb) = X
      rw [hfilter]
    show (blobPairsOf writes).foldl (trackStep now') (deleteDereferencedBlobs writes X) = X
    rw [hdel1, hX]
    exact foldl_stable now' (blobPairsOf writes) _
      (fun p hp => ⟨foldl_recordBlob_key now (blobPairsOf writes) _ p hp,
        foldl_key now (blobPairsOf writes) _ p hp⟩)
  · intro hnd
    apply foldl_recordBlob_nodup
    exact List.Nodup.filter _ hnd
  · intro hnd
    apply foldl_keys_nodup
    exact hnd

def c5Writes : List PreparedWrite :=
  [prepareCreate "did:a" "app" "r1"
     { payload := [1], blobs := [⟨31, "image/png", 3⟩, ⟨32, "video/mp4", 4⟩] } false,
   prepareDelete "did:a" "app" "r2"]

def c5Db : BlobDb :=
  { recordBlob := [(9, "at://did:a/app/r9")],
    blob := [{ cid := 9, mimeType := "m", size := 1, createdAt := "t0" }] }

theorem blob_reconciliation_idempotent_witness :
    trackBlobs c5Writes "t2" (trackBlobs c5Writes "t1" c5Db) =
      trackBlobs c5Writes "t1" c5Db ∧
    (c5Db.recordBlob.Nodup → (trackBlobs c5Writes "t1" c5Db).recordBlob.Nodup) ∧
    ((blobKeys c5Db).Nodup → (blobKeys (trackBlobs c5Writes "t1" c5Db)).Nodup) :=
  blob_reconciliation_idempotent c5Writes "t1" "t2" c5Db (by decide)

end Recovery
